import Mathlib

/-!
A verification development for the coal-stockpile fire-risk pipeline
(`modules/model_trainer.py` and `modules/predict.py`).

Dates are embedded as day numbers (`Int`): the loaders parse CSV date
strings into timestamps, and every date that reaches the pipeline is
normalized to day granularity.  A failed parse (`pd.to_datetime(...,
errors="coerce")` producing `NaT`) is embedded as `none`.  Numeric
values (tonnage, temperatures, pressure, humidity) are embedded as
rationals; a missing or non-numeric value is `none`.
-/

namespace CoalFire

/-! ### Small list utilities (pandas `Series.min` / `Series.max` skip missing values) -/

/-- Maximum of a list of days; `none` on the empty list (pandas `NaT`). -/
def listMax : List Int → Option Int
  | [] => none
  | x :: xs =>
    match listMax xs with
    | none => some x
    | some m => some (max x m)

/-- Minimum of a list of days; `none` on the empty list (pandas `NaT`). -/
def listMin : List Int → Option Int
  | [] => none
  | x :: xs =>
    match listMin xs with
    | none => some x
    | some m => some (min x m)

/-- Maximum of a list of rationals; `none` on the empty list. -/
def listMaxQ : List ℚ → Option ℚ
  | [] => none
  | x :: xs =>
    match listMaxQ xs with
    | none => some x
    | some m => some (max x m)

/-- Duplicate removal keeping the first occurrence of each element. -/
def firstApp {α : Type} [DecidableEq α] : List α → List α
  | [] => []
  | x :: xs => x :: (firstApp xs).filter (fun y => y ≠ x)

/-- Position of the first occurrence of `v` (0 when `v` is absent used only
under a membership hypothesis). -/
def posOf {α : Type} [DecidableEq α] (v : α) : List α → Nat
  | [] => 0
  | x :: xs => if x = v then 0 else posOf v xs + 1

/-! ### Input records -/

/-- One row of `supplies.csv`.  `unload` is the inbound date
(`ВыгрузкаНаСклад`), `toStock` the inbound tonnage (`На склад, тн`),
`load` the outbound date (`ПогрузкаНаСудно`), `toShip` the outbound
tonnage (`На судно, тн`), `grade` the coal grade (`Наим. ЕТСНГ`). -/
structure SupplyRow where
  stock : String
  unload : Option Int
  toStock : Option ℚ
  load : Option Int
  toShip : Option ℚ
  grade : String
deriving DecidableEq

/-- One row of `fires.csv`: stockpile (`Штабель`), fire start
(`Дата начала`) and fire end (`Дата оконч.`). -/
structure FireRow where
  stock : Option String
  start : Option Int
  fin : Option Int
deriving DecidableEq

/-- One row of `temperature.csv`: stockpile, act date (`Дата акта`) and
maximal measured temperature (`Максимальная температура`). -/
structure TemperatureRow where
  stock : String
  actDate : Option Int
  maxTemp : ℚ
deriving DecidableEq

/-- One row of the concatenated weather files: date plus the three
retained columns `t`, `p`, `humidity`. -/
structure WeatherRow where
  date : Option Int
  t : Option ℚ
  p : Option ℚ
  humidity : Option ℚ
deriving DecidableEq

/-! ### Temporal boundaries (`model_trainer.py` lines 107-126)

The code gathers the min and max of four date series — fire end dates,
temperature act dates, supply unload dates and supply load dates —
drops the missing ones and takes the overall min / max.  The weather
dates parsed on line 100 are never consulted here. -/

def fireEndDates (fires : List FireRow) : List Int := fires.filterMap (·.fin)

def tempActDates (temps : List TemperatureRow) : List Int := temps.filterMap (·.actDate)

def unloadDates (supplies : List SupplyRow) : List Int := supplies.filterMap (·.unload)

def loadDates (supplies : List SupplyRow) : List Int := supplies.filterMap (·.load)

/-- The list `dates` of the source with the missing entries dropped
(`valid_dates`). -/
def boundaryCandidates (fires : List FireRow) (temps : List TemperatureRow)
    (supplies : List SupplyRow) : List Int :=
  ([listMin (fireEndDates fires), listMin (tempActDates temps),
    listMin (unloadDates supplies), listMin (loadDates supplies),
    listMax (fireEndDates fires), listMax (tempActDates temps),
    listMax (unloadDates supplies), listMax (loadDates supplies)]).filterMap id

/-- `max_date`: the shared end boundary of every stockpile calendar. -/
def maxDate (fires : List FireRow) (temps : List TemperatureRow)
    (supplies : List SupplyRow) : Option Int :=
  listMax (boundaryCandidates fires temps supplies)

/-- End boundary as the specification words it: the latest date observed
across all FOUR sources, weather included.  Modelled from the spec for
comparison with `maxDate`; the code never consults weather dates. -/
def specMaxDate (fires : List FireRow) (temps : List TemperatureRow)
    (supplies : List SupplyRow) (weather : List WeatherRow) : Option Int :=
  listMax (boundaryCandidates fires temps supplies ++ weather.filterMap (·.date))

/-! ### Calendar builder (`model_trainer.py` lines 128-145)

`db_supplies.groupby("Штабель")` iterates over the distinct stockpile
ids.  `groupby` sorts its keys, but no property below depends on the
relative order of the per-stockpile blocks, so the first-appearance
order of `firstApp` is used. -/

/-- The distinct stockpile ids of the supplies table. -/
def stockpiles (supplies : List SupplyRow) : List String :=
  firstApp (supplies.map (·.stock))

/-- `stack_start[s]`: earliest inbound date of stockpile `s`
(`groupby("Штабель")["ВыгрузкаНаСклад"].min()`, skipping missing dates). -/
def stackStart (supplies : List SupplyRow) (s : String) : Option Int :=
  listMin ((supplies.filter (fun r => r.stock = s)).filterMap (·.unload))

/-- `pd.date_range(a, b, freq="D")` at day granularity: the contiguous
sequence `a, a+1, ..., b` (empty when `b < a`). -/
def dateRange (a b : Int) : List Int :=
  (List.range (b + 1 - a).toNat).map (fun i : Nat => a + (i : Int))

/-- One row of the daily calendar, with its fire label `y_3d`. -/
structure CalRow where
  stock : String
  date : Int
  y3d : Nat
deriving DecidableEq

/-- `df_calendar` right after construction: for every stockpile with a
resolvable start date, one row per day from that start to `max_date`;
stockpiles whose start is unresolvable are skipped; the label column is
initialised to 0.  When no temporal boundary exists the pipeline raises,
embedded as the empty table. -/
def buildCalendar (fires : List FireRow) (temps : List TemperatureRow)
    (supplies : List SupplyRow) : List CalRow :=
  match maxDate fires temps supplies with
  | none => []
  | some maxD =>
    (stockpiles supplies).flatMap (fun s =>
      match stackStart supplies s with
      | none => []
      | some st => (dateRange st maxD).map (fun d => ⟨s, d, 0⟩))

/-- The per-stockpile block of the calendar, as in `buildCalendar`. -/
def calBlock (supplies : List SupplyRow) (maxD : Int) (s : String) : List CalRow :=
  match stackStart supplies s with
  | none => []
  | some st => (dateRange st maxD).map (fun d => ⟨s, d, 0⟩)

/-! ### Label assigner (`model_trainer.py` lines 147-168) -/

/-- The mask of one fire event: the row is selected when the fire has a
resolvable stockpile and start date, the row belongs to that stockpile
and its date lies in `[start - 3 days, start - 1 day]`. -/
def fireMatches (f : FireRow) (s : String) (d : Int) : Bool :=
  match f.stock, f.start with
  | some fs, some fd => fs = s ∧ fd - 3 ≤ d ∧ d ≤ fd - 1
  | _, _ => false

/-- The labelling loop: for each fire event in turn, set `y_3d := 1` on
every calendar row selected by its mask.  Fire rows with a missing
stockpile or start date are skipped (`dropna` plus the `isna` guard). -/
def assignLabels (fires : List FireRow) (cal : List CalRow) : List CalRow :=
  fires.foldl
    (fun acc f =>
      acc.map (fun r => if fireMatches f r.stock r.date then { r with y3d := 1 } else r))
    cal

/-! ### Generic left merge

`pd.merge(left, right, how="left")`: every left row is paired with every
matching right row; a left row with no match survives once, with missing
values on the right side. -/

def mergeLeft {α β : Type} (ls : List α) (rs : List β) (mtc : α → β → Bool) :
    List (α × Option β) :=
  ls.flatMap (fun a =>
    match rs.filter (mtc a) with
    | [] => [(a, none)]
    | bs => bs.map (fun b => (a, some b)))

/-! ### Enrichment 1: stockpile metadata (`model_trainer.py` lines 170-180) -/

/-- One row of `stack_info`: per stockpile, the formation date
(minimal inbound date, `Дата_формирования`) and the first-seen grade
(`Марка`). -/
structure StackInfo where
  stock : String
  formation : Option Int
  grade : Option String
deriving DecidableEq

/-- `stack_info`: `groupby("Штабель").agg(min unload, first grade)` —
one row per distinct stockpile id. -/
def stackInfoTable (supplies : List SupplyRow) : List StackInfo :=
  (stockpiles supplies).map (fun s =>
    ⟨s, stackStart supplies s,
      ((supplies.filter (fun r => r.stock = s)).map (·.grade)).head?⟩)

/-- A calendar row after the metadata merge; `age` is
`Возраст_дн = Дата - Дата_формирования` in days (missing when the
formation date is missing). -/
structure MetaRow where
  stock : String
  date : Int
  y3d : Nat
  grade : Option String
  formation : Option Int
  age : Option Int
deriving DecidableEq

/-- Merge `stack_info` onto the labeled calendar (left merge on the
stockpile id) and derive the age column. -/
def addMetadata (supplies : List SupplyRow) (cal : List CalRow) : List MetaRow :=
  (mergeLeft cal (stackInfoTable supplies) (fun r i => r.stock = i.stock)).map
    (fun ri =>
      { stock := ri.1.stock, date := ri.1.date, y3d := ri.1.y3d,
        grade := ri.2.bind (·.grade),
        formation := ri.2.bind (·.formation),
        age := (ri.2.bind (·.formation)).map (fun f => ri.1.date - f) })

/-! ### Enrichment 2: cumulative mass (`model_trainer.py` lines 182-198) -/

/-- The concatenated `arrivals` / `departures` event list as signed
`(stockpile, date, delta_mass)` triples.  A row contributes an arrival
when both its unload date and inbound tonnage are present, and a
departure (negated tonnage) when both its load date and outbound
tonnage are present — `dropna` drops the others. -/
def massEvents (supplies : List SupplyRow) : List (String × Int × ℚ) :=
  supplies.filterMap
    (fun r =>
      match r.unload, r.toStock with
      | some d, some q => some (r.stock, d, q)
      | _, _ => none)
  ++ supplies.filterMap
    (fun r =>
      match r.load, r.toShip with
      | some d, some q => some (r.stock, d, -q)
      | _, _ => none)

/-- `mass_daily`: mass events grouped by `(Штабель, Дата)`, summing
same-day deltas.  One row per distinct key. -/
def massDaily (supplies : List SupplyRow) : List (String × Int × ℚ) :=
  (firstApp ((massEvents supplies).map (fun e => (e.1, e.2.1)))).map
    (fun k =>
      (k.1, k.2,
        (((massEvents supplies).filter (fun e => e.1 = k.1 ∧ e.2.1 = k.2)).map
          (fun e => e.2.2)).sum))

/-- The per-day signed mass delta of a stockpile: arrivals minus
departures dated that day (0 when the day has no event). -/
def massDelta (supplies : List SupplyRow) (s : String) (d : Int) : ℚ :=
  (((massEvents supplies).filter (fun e => e.1 = s ∧ e.2.1 = d)).map
    (fun e => e.2.2)).sum

/-- A calendar row with its mass columns. -/
structure MassRow where
  stock : String
  date : Int
  y3d : Nat
  grade : Option String
  formation : Option Int
  age : Option Int
  deltaMass : ℚ
  mass : ℚ
deriving DecidableEq

/-- Merge `mass_daily` onto the calendar (left merge on stockpile and
date) and fill the missing deltas with 0; the `mass` column is set to
the delta for now and accumulated by `cumMassGo`. -/
def addMassDelta (supplies : List SupplyRow) (rows : List MetaRow) : List MassRow :=
  (mergeLeft rows (massDaily supplies)
      (fun r m => r.stock = m.1 ∧ r.date = m.2.1)).map
    (fun rm =>
      { stock := rm.1.stock, date := rm.1.date, y3d := rm.1.y3d,
        grade := rm.1.grade, formation := rm.1.formation, age := rm.1.age,
        deltaMass := (rm.2.map (fun m => m.2.2)).getD 0,
        mass := (rm.2.map (fun m => m.2.2)).getD 0 })

/-- `groupby("Штабель")["delta_mass"].cumsum()`: the mass of a row is
the sum of the deltas of the rows of the same stockpile up to and
including it, in table order.  `seen` is the already-processed part of
the table. -/
def cumMassGo (seen : List MassRow) : List MassRow → List MassRow
  | [] => []
  | r :: rs =>
    { r with
      mass := (((seen ++ [r]).filter (fun x => x.stock = r.stock)).map
        (·.deltaMass)).sum } :: cumMassGo (seen ++ [r]) rs

/-- The cumulative-mass step applied to the whole table. -/
def addCumMass (rows : List MassRow) : List MassRow :=
  cumMassGo [] rows

/-! ### Enrichment 3: temperature (`model_trainer.py` lines 200-206) -/

/-- `db_temp_grouped`: temperature acts grouped by `(Штабель, Дата)`,
keeping the maximal temperature of each day.  Acts with an unresolvable
date are dropped with their group. -/
def tempDaily (temps : List TemperatureRow) : List (String × Int × ℚ) :=
  (firstApp (temps.filterMap (fun r => r.actDate.map (fun d => (r.stock, d))))).map
    (fun k =>
      (k.1, k.2,
        ((listMaxQ ((temps.filter
          (fun r => r.stock = k.1 ∧ r.actDate = some k.2)).map (·.maxTemp))).getD 0)))

/-- A calendar row with its temperature columns: `rawTemp` is the merged
reading, `maxTemp` the forward-filled and zero-defaulted value
(`Максимальная температура`), `tempChange` the day-over-day difference
(`Темп_изменение`). -/
structure TempRow2 where
  stock : String
  date : Int
  y3d : Nat
  grade : Option String
  formation : Option Int
  age : Option Int
  deltaMass : ℚ
  mass : ℚ
  rawTemp : Option ℚ
  maxTemp : ℚ
  tempChange : ℚ
deriving DecidableEq

/-- Merge `db_temp_grouped` onto the calendar (left merge on stockpile
and date); the filled columns are initialised and computed by
`tempFillGo`. -/
def addTempRaw (temps : List TemperatureRow) (rows : List MassRow) : List TempRow2 :=
  (mergeLeft rows (tempDaily temps) (fun r m => r.stock = m.1 ∧ r.date = m.2.1)).map
    (fun rm =>
      { stock := rm.1.stock, date := rm.1.date, y3d := rm.1.y3d,
        grade := rm.1.grade, formation := rm.1.formation, age := rm.1.age,
        deltaMass := rm.1.deltaMass, mass := rm.1.mass,
        rawTemp := rm.2.map (fun m => m.2.2), maxTemp := 0, tempChange := 0 })

/-- `groupby("Штабель").ffill().fillna(0)` followed by
`groupby("Штабель").diff().fillna(0)`: the filled value of a row is the
last present reading of its stockpile up to and including it (0 when
none exists yet); the change column subtracts the previous filled value
of the same stockpile (0 on the first row of a stockpile). -/
def tempFillGo (seen : List TempRow2) : List TempRow2 → List TempRow2
  | [] => []
  | r :: rs =>
    let grp := (seen ++ [r]).filter (fun x => x.stock = r.stock)
    let filled := ((grp.filterMap (·.rawTemp)).getLast?).getD 0
    let before := seen.filter (fun x => x.stock = r.stock)
    let change :=
      if before = [] then 0
      else filled - ((before.filterMap (·.rawTemp)).getLast?).getD 0
    { r with maxTemp := filled, tempChange := change } :: tempFillGo (seen ++ [r]) rs

/-- The temperature fill step applied to the whole table. -/
def addTempFill (rows : List TempRow2) : List TempRow2 :=
  tempFillGo [] rows

/-! ### Enrichment 4: weather (`model_trainer.py` lines 208-212) -/

/-- A fully enriched row: the three weather columns joined by date. -/
structure FullRow where
  stock : String
  date : Int
  y3d : Nat
  grade : Option String
  formation : Option Int
  age : Option Int
  deltaMass : ℚ
  mass : ℚ
  rawTemp : Option ℚ
  maxTemp : ℚ
  tempChange : ℚ
  t : Option ℚ
  p : Option ℚ
  humidity : Option ℚ
deriving DecidableEq

/-- Merge the weather series onto the calendar: left merge on the date
only — weather is site-wide, one calendar row is paired with every
weather row of the same date. -/
def mergeWeather (rows : List TempRow2) (weather : List WeatherRow) : List FullRow :=
  (mergeLeft rows weather (fun r w => w.date = some r.date)).map
    (fun rw =>
      { stock := rw.1.stock, date := rw.1.date, y3d := rw.1.y3d,
        grade := rw.1.grade, formation := rw.1.formation, age := rw.1.age,
        deltaMass := rw.1.deltaMass, mass := rw.1.mass,
        rawTemp := rw.1.rawTemp, maxTemp := rw.1.maxTemp,
        tempChange := rw.1.tempChange,
        t := rw.2.bind (·.t), p := rw.2.bind (·.p),
        humidity := rw.2.bind (·.humidity) })

/-- Mean of the present values of a column
(`Series.mean()` skips missing values; `none` on an all-missing column). -/
def colMeanQ (col : List (Option ℚ)) : Option ℚ :=
  match col.filterMap id with
  | [] => none
  | xs => some (xs.sum / xs.length)

/-- `df[col].ffill().fillna(df[col].mean())` for the three weather
columns, applied over the whole table (no grouping): carry the last
present value forward, then default to the mean of the pre-fill column.
`cT cP cH` are the carried values. -/
def weatherFillGo (mT mP mH : Option ℚ) (cT cP cH : Option ℚ) :
    List FullRow → List FullRow
  | [] => []
  | r :: rs =>
    let fT := match r.t with | some v => some v | none => cT
    let fP := match r.p with | some v => some v | none => cP
    let fH := match r.humidity with | some v => some v | none => cH
    { r with
      t := match fT with | some v => some v | none => mT,
      p := match fP with | some v => some v | none => mP,
      humidity := match fH with | some v => some v | none => mH } ::
      weatherFillGo mT mP mH fT fP fH rs

/-- The weather fill step; the means are computed once, on the merged
pre-fill columns. -/
def fillWeather (rows : List FullRow) : List FullRow :=
  weatherFillGo (colMeanQ (rows.map (·.t))) (colMeanQ (rows.map (·.p)))
    (colMeanQ (rows.map (·.humidity))) none none none rows

/-! ### The composed feature table -/

/-- The feature table of the training pipeline: calendar, fire labels,
metadata, cumulative mass, temperature and weather, in the order of the
source.  The retained temporal features (`weekday`, `month`) are direct
projections of the date and add no further rows or keys. -/
def featureTable (fires : List FireRow) (temps : List TemperatureRow)
    (supplies : List SupplyRow) (weather : List WeatherRow) : List FullRow :=
  fillWeather
    (mergeWeather
      (addTempFill
        (addTempRaw temps
          (addCumMass
            (addMassDelta supplies
              (addMetadata supplies
                (assignLabels fires (buildCalendar fires temps supplies)))))))
      weather)

/-! ### The grade encoder (`sklearn.preprocessing.LabelEncoder`)

`fit` records the distinct values of the training column as `classes_`;
`transform` maps a value to its position among the classes and raises on
an unknown value; `inverse_transform` maps a position back.  `np.unique`
sorts the classes; none of the properties below depends on their order,
only on the list being duplicate-free and containing exactly the fitted
values, so the first-appearance order of `firstApp` is used. -/

/-- `classes_` after `le.fit(...)` on a training column. -/
def leClasses (train : List String) : List String :=
  firstApp train

/-- `le.transform([v])[0]`: the integer code of `v`, `none` when the
encoder raises (`v` not among the classes). -/
def leTransform (classes : List String) (v : String) : Option Nat :=
  if v ∈ classes then some (posOf v classes) else none

/-- `le.inverse_transform([i])[0]`: the class at position `i`. -/
def leInverse (classes : List String) (i : Nat) : Option String :=
  classes[i]?

/-! ### Inference-side frames (`modules/predict.py`)

A cell of an inference table: missing (`NaN`), numeric, or textual. -/

inductive Cell where
  | na : Cell
  | num : ℚ → Cell
  | str : String → Cell
deriving DecidableEq

/-- A data frame: named columns of cells. -/
abbrev Frame : Type := List (String × List Cell)

/-- The column names of a frame. -/
def frameNames (df : Frame) : List String := df.map (·.1)

/-- Look a column up by name. -/
def frameCol (df : Frame) (c : String) : Option (List Cell) :=
  (df.find? (fun p => p.1 = c)).map (·.2)

/-- `prepare_features_from_df` lines 71-82, encoder present: try the
bulk `encoder.transform`; it raises as soon as any value is not a known
class (missing and numeric cells included), in which case every cell is
re-encoded one by one — a known class to its code, anything else to the
sentinel `-1`.  Both branches agree pointwise, and neither raises. -/
def encodeWithClasses (classes : List String) (col : List Cell) : List Cell :=
  if col.all (fun x => match x with | .str s => s ∈ classes | _ => false) then
    col.map (fun x =>
      match x with
      | .str s => .num (posOf s classes)
      | _ => x)
  else
    col.map (fun x =>
      match x with
      | .str s => if s ∈ classes then .num (posOf s classes) else .num (-1)
      | _ => .num (-1))

/-- `pd.factorize` (lines 83-85, encoder absent): distinct present
values are numbered in order of first appearance inside the batch;
missing cells receive the factorize missing-value sentinel `-1`. -/
def factorizeCol (col : List Cell) : List Cell :=
  col.map (fun x =>
    match x with
    | .na => .num (-1)
    | v => .num (posOf v (firstApp (col.filter (fun y => y ≠ Cell.na)))))

/-- Mean of the numeric cells of a column (`Series.mean()`, missing
values skipped; `none` when no numeric cell exists). -/
def cellColMean (col : List Cell) : Option ℚ :=
  match col.filterMap (fun x => match x with | .num q => some q | _ => none) with
  | [] => none
  | xs => some (xs.sum / xs.length)

/-- Lines 88-91: when a column has a missing value, fill every missing
value with the mean of that very column — the mean of the batch being
predicted, no training-data statistic is involved.  A column whose mean
is itself missing (no numeric cell) is left as is, and a column with no
missing value is untouched. -/
def fillnaMean (col : List Cell) : List Cell :=
  if col.any (fun x => x = Cell.na) then
    match cellColMean col with
    | some m => col.map (fun x => if x = Cell.na then .num m else x)
    | none => col
  else col

/-- The `Марка` encoding step of `prepare_features_from_df`: encoder
when loaded, batch-local factorization otherwise.  Applied only when the
frame has a `Марка` column. -/
def encodeMarka (encoder : Option (List String)) (df : Frame) : Frame :=
  df.map (fun p =>
    if p.1 = "Марка" then
      (p.1,
        match encoder with
        | some classes => encodeWithClasses classes p.2
        | none => factorizeCol p.2)
    else p)

/-- `prepare_features_from_df`: fail with the exact list of missing
required columns when any is absent (the `ValueError` of lines 65-69);
otherwise encode `Марка`, select the feature columns and mean-impute
each of them. -/
def prepareFeaturesFromDf (encoder : Option (List String)) (df : Frame)
    (featureCols : List String) : Except (List String) Frame :=
  if (featureCols.filter (fun c => c ∉ frameNames df)) = [] then
    .ok (featureCols.filterMap (fun c =>
      (frameCol (encodeMarka encoder df) c).map (fun col => (c, fillnaMean col))))
  else .error (featureCols.filter (fun c => c ∉ frameNames df))

/-! ### The predictor (`modules/predict.py` lines 14-128) -/

/-- A trained classifier artifact: its two prediction methods. -/
structure RFModel where
  predictRows : Frame → List Nat
  probaRows : Frame → List ℚ

/-- The artifact files on disk; `none` stands for a missing or
unreadable file. -/
structure Disk where
  model : Option RFModel
  encoder : Option (List String)

/-- The predictor state after `__init__`: `load_model` and
`load_encoder` catch every loading failure and leave the corresponding
field `None`, so construction always succeeds. -/
structure Predictor where
  model : Option RFModel
  encoder : Option (List String)

/-- `CoalFirePredictor(...)`: total — a missing artifact is recorded,
not raised. -/
def loadPredictor (disk : Disk) : Predictor :=
  ⟨disk.model, disk.encoder⟩

/-- The errors a prediction call can raise (`ValueError` in the source). -/
inductive PredError where
  | schema : List String → PredError
  | modelUnavailable : PredError
deriving DecidableEq

/-- `predict_from_features`: `_ensure_model` raises
`ValueError("Модель не загружена")` when no model is loaded. -/
def predictFromFeatures (p : Predictor) (X : Frame) : Except PredError (List Nat) :=
  match p.model with
  | none => .error .modelUnavailable
  | some m => .ok (m.predictRows X)

/-- `predict_proba_from_features`: same availability guard.  (The
`hasattr` check on `predict_proba` always passes for the saved model and
for `RFModel`, whose method is total.) -/
def predictProbaFromFeatures (p : Predictor) (X : Frame) : Except PredError (List ℚ) :=
  match p.model with
  | none => .error .modelUnavailable
  | some m => .ok (m.probaRows X)

/-- `add_predictions_to_df`: prepare the features (schema errors
propagate first), then the probabilities and the thresholded labels. -/
def addPredictionsToDf (p : Predictor) (df : Frame) (featureCols : List String)
    (threshold : ℚ) : Except PredError (List ℚ × List Nat) :=
  match prepareFeaturesFromDf p.encoder df featureCols with
  | .error missing => .error (.schema missing)
  | .ok X =>
    match predictProbaFromFeatures p X with
    | .error e => .error e
    | .ok proba => .ok (proba, proba.map (fun q => if threshold ≤ q then 1 else 0))

/-- A proof-side restatement of the cumulative-mass step on one
stockpile block: running sums of the delta column starting from `c`. -/
def localCumGo (c : ℚ) : List MassRow → List MassRow
  | [] => []
  | r :: rs => { r with mass := c + r.deltaMass } :: localCumGo (c + r.deltaMass) rs

/-- Modelled from the spec claim about cumulative mass: the sum of ALL
signed per-day deltas of stockpile `s` dated up to and including `d`,
with no lower bound on the event date.  For comparison with the code,
which only accumulates deltas of calendar days. -/
def specCumulativeMass (supplies : List SupplyRow) (s : String) (d : Int) : ℚ :=
  (((massEvents supplies).filter (fun e => e.1 = s ∧ e.2.1 ≤ d)).map
    (fun e => e.2.2)).sum

/-- What `run_prediction_and_generate_report` shows the user. -/
inductive UIOutcome where
  | success : Nat → Nat → UIOutcome
  | errorShown : PredError → UIOutcome
deriving DecidableEq

/-- `run_prediction_and_generate_report` (generate_report.py lines
92-135): every exception of the prediction call is caught and rendered
as an on-screen error, never re-raised — the process survives. -/
def runPredictionReport (disk : Disk) (df : Frame) (featureCols : List String)
    (threshold : ℚ) : UIOutcome :=
  match addPredictionsToDf (loadPredictor disk) df featureCols threshold with
  | .error e => .errorShown e
  | .ok r => .success (r.2.sum) r.2.length

/-! ### Concrete example inputs used by the instance theorems -/

/-- One stockpile `A`, inbound 100 t on day 0. -/
def exSuppliesA : List SupplyRow := [⟨"A", some 0, some 100, none, none, "G"⟩]

/-- The scenario of the spec: stockpile `A`, inbound 100 t on day 0,
outbound 40 t on day 31. -/
def exSuppliesScenario : List SupplyRow := [⟨"A", some 0, some 100, some 31, some 40, "G"⟩]

/-- Stockpile `A` with an outbound event (day 5) dated before its first
inbound event (day 10). -/
def exSuppliesEarlyOut : List SupplyRow := [⟨"A", some 10, some 100, some 5, some 40, "G"⟩]

/-- Stockpile `A` with a resolvable start and stockpile `B` whose
inbound date is unresolvable. -/
def exSuppliesTwo : List SupplyRow :=
  [⟨"A", some 0, some 100, none, none, "G"⟩, ⟨"B", none, none, some 3, some 40, "H"⟩]

/-- One fire on stockpile `A` starting day 3, ending day 4. -/
def exFires3 : List FireRow := [⟨some "A", some 3, some 4⟩]

/-- A single weather record far later (day 20) than every other date. -/
def exWeatherLate : List WeatherRow := [⟨some 20, some 1, some 2, some 3⟩]

/-- One weather record on day 0. -/
def exWeatherOne : List WeatherRow := [⟨some 0, some 1, some 2, some 3⟩]

/-- Two weather records sharing day 0. -/
def exWeatherDup : List WeatherRow :=
  [⟨some 0, some 1, some 2, some 3⟩, ⟨some 0, some 4, some 5, some 6⟩]

/-! ## Lemmas on the list utilities -/

theorem listMax_le_of_mem : ∀ {l : List Int} {a m : Int}, a ∈ l → listMax l = some m → a ≤ m := by
  intro l
  induction l with
  | nil => intro a m ha; cases ha
  | cons x xs ih =>
    intro a m ha hm
    rw [listMax] at hm
    cases hx : listMax xs with
    | none =>
      rw [hx] at hm
      cases hm
      rcases List.mem_cons.mp ha with h | h
      · exact le_of_eq h
      · rcases hmem : listMax xs with _ | mx
        · cases xs with
          | nil => cases h
          | cons y ys => rw [listMax] at hmem; cases hy : listMax ys <;> rw [hy] at hmem <;> cases hmem
        · rw [hmem] at hx; cases hx
    | some mx =>
      rw [hx] at hm
      cases hm
      rcases List.mem_cons.mp ha with h | h
      · rw [h]; exact le_max_left _ _
      · exact le_trans (ih h hx) (le_max_right _ _)

theorem listMax_exists_of_mem : ∀ {l : List Int} {a : Int}, a ∈ l → ∃ m, listMax l = some m := by
  intro l a ha
  cases l with
  | nil => cases ha
  | cons x xs => rw [listMax]; cases hx : listMax xs <;> exact ⟨_, rfl⟩

theorem listMin_mem : ∀ {l : List Int} {m : Int}, listMin l = some m → m ∈ l := by
  intro l
  induction l with
  | nil => intro m hm; cases hm
  | cons x xs ih =>
    intro m hm
    rw [listMin] at hm
    cases hx : listMin xs with
    | none => rw [hx] at hm; cases hm; exact List.mem_cons_self _ _
    | some mx =>
      rw [hx] at hm
      cases hm
      rcases min_choice x mx with h | h <;> rw [h]
      · exact List.mem_cons_self _ _
      · exact List.mem_cons_of_mem _ (ih hx)

theorem mem_firstApp {α : Type} [DecidableEq α] : ∀ {l : List α} {a : α}, a ∈ firstApp l ↔ a ∈ l := by
  intro l
  induction l with
  | nil => intro a; rfl
  | cons x xs ih =>
    intro a
    rw [firstApp]
    by_cases hax : a = x
    · subst hax; simp
    · simp only [List.mem_cons, List.mem_filter]
      constructor
      · rintro (h | ⟨h, _⟩)
        · exact Or.inl h
        · exact Or.inr (ih.mp h)
      · rintro (h | h)
        · exact Or.inl h
        · exact Or.inr ⟨ih.mpr h, by simpa using hax⟩

theorem nodup_firstApp {α : Type} [DecidableEq α] : ∀ (l : List α), (firstApp l).Nodup := by
  intro l
  induction l with
  | nil => exact List.nodup_nil
  | cons x xs ih =>
    rw [firstApp]
    refine List.nodup_cons.mpr ⟨?_, ih.filter _⟩
    intro hx
    have := (List.mem_filter.mp hx).2
    simp at this

theorem getElem?_posOf {α : Type} [DecidableEq α] :
    ∀ {l : List α} {a : α}, a ∈ l → l[posOf a l]? = some a := by
  intro l
  induction l with
  | nil => intro a ha; cases ha
  | cons x xs ih =>
    intro a ha
    rw [posOf]
    by_cases hxa : x = a
    · subst hxa; simp
    · rw [if_neg hxa]
      have hmem : a ∈ xs := by
        rcases List.mem_cons.mp ha with h | h
        · exact absurd h.symm hxa
        · exact h
      simpa using ih hmem

/-! ## Lemmas on the generic left merge -/

theorem filter_length_le_one {β γ : Type} {rs : List β} {k : β → Option γ}
    (h : (rs.filterMap k).Nodup) (p : β → Bool) (x : γ)
    (hp : ∀ b, p b = true → k b = some x) :
    (rs.filter p).length ≤ 1 := by
  induction rs with
  | nil => simp
  | cons b bs ih =>
    have htail : (bs.filterMap k).Nodup := by
      rw [List.filterMap_cons] at h
      cases hk : k b with
      | none => rw [hk] at h; exact h
      | some y => rw [hk] at h; exact (List.nodup_cons.mp h).2
    rw [List.filter_cons]
    cases hpb : p b with
    | false => simpa using ih htail
    | true =>
      simp only [if_pos rfl]
      have hkb : k b = some x := hp b hpb
      have hempty : bs.filter p = [] := by
        rw [List.eq_nil_iff_forall_not_mem]
        intro c hc
        have hcb : c ∈ bs := (List.mem_filter.mp hc).1
        have hpc : p c = true := (List.mem_filter.mp hc).2
        have hx : x ∈ bs.filterMap k := List.mem_filterMap.mpr ⟨c, hcb, hp c hpc⟩
        rw [List.filterMap_cons, hkb] at h
        exact (List.nodup_cons.mp h).1 hx
      simp [hempty]

theorem mergeLeft_eq_map {α β : Type} {ls : List α} {rs : List β} {mtc : α → β → Bool}
    (h : ∀ a, (rs.filter (mtc a)).length ≤ 1) :
    mergeLeft ls rs mtc = ls.map (fun a => (a, (rs.filter (mtc a)).head?)) := by
  induction ls with
  | nil => rfl
  | cons a as ih =>
    have hsingle : ∀ a : α,
        (match rs.filter (mtc a) with
          | [] => [(a, (none : Option β))]
          | bs => bs.map (fun b => (a, some b))) = [(a, (rs.filter (mtc a)).head?)] := by
      intro a
      rcases hf : rs.filter (mtc a) with _ | ⟨b, bs⟩
      · simp
      · have := h a
        rw [hf] at this
        cases bs with
        | nil => simp
        | cons b2 bs2 => simp at this
    rw [mergeLeft, List.flatMap_cons, hsingle a, List.map_cons]
    rw [mergeLeft] at ih
    rw [ih]
    rfl

theorem mergeLeft_keys {α β : Type} {ls : List α} {rs : List β} {mtc : α → β → Bool}
    (h : ∀ a, (rs.filter (mtc a)).length ≤ 1) :
    (mergeLeft ls rs mtc).map (·.1) = ls := by
  rw [mergeLeft_eq_map h]
  induction ls with
  | nil => rfl
  | cons a as ih => simpa using ih

/-! ## Lemmas on flatMap collapses -/

theorem flatMap_eq_nil_of {α β : Type} (l : List α) (h : α → List β)
    (hz : ∀ x ∈ l, h x = []) : l.flatMap h = [] := by
  induction l with
  | nil => rfl
  | cons x xs ih =>
    rw [List.flatMap_cons, hz x (List.mem_cons_self _ _), List.nil_append]
    exact ih (fun y hy => hz y (List.mem_cons_of_mem _ hy))

theorem flatMap_eq_of_single {α β : Type} [DecidableEq α] {l : List α} {h : α → List β} {a : α}
    (hnd : l.Nodup) (ha : a ∈ l) (hz : ∀ x ∈ l, x ≠ a → h x = []) : l.flatMap h = h a := by
  induction l with
  | nil => cases ha
  | cons x xs ih =>
    rw [List.flatMap_cons]
    by_cases hxa : x = a
    · subst hxa
      have : xs.flatMap h = [] := by
        refine flatMap_eq_nil_of _ _ (fun y hy => ?_)
        refine hz y (List.mem_cons_of_mem _ hy) ?_
        intro hya
        exact (List.nodup_cons.mp hnd).1 (hya ▸ hy)
      rw [this, List.append_nil]
    · have hha : a ∈ xs := by
        rcases List.mem_cons.mp ha with hh | hh
        · exact absurd hh.symm hxa
        · exact hh
      rw [hz x (List.mem_cons_self _ _) hxa, List.nil_append]
      exact ih (List.nodup_cons.mp hnd).2 hha
        (fun y hy hne => hz y (List.mem_cons_of_mem _ hy) hne)

theorem filter_eq_singleton_of_nodup {α : Type} [DecidableEq α] {l : List α} {a : α}
    (hnd : l.Nodup) (ha : a ∈ l) : l.filter (fun x => a = x) = [a] := by
  induction l with
  | nil => cases ha
  | cons x xs ih =>
    rw [List.filter_cons]
    by_cases hxa : x = a
    · subst hxa
      have : xs.filter (fun y => x = y) = [] := by
        rw [List.eq_nil_iff_forall_not_mem]
        intro c hc
        have h1 : c ∈ xs := (List.mem_filter.mp hc).1
        have h2 : x = c := by simpa using (List.mem_filter.mp hc).2
        exact (List.nodup_cons.mp hnd).1 (h2 ▸ h1)
      simp [this]
    · have hha : a ∈ xs := by
        rcases List.mem_cons.mp ha with hh | hh
        · exact absurd hh.symm hxa
        · exact hh
      have hne : ¬(a = x) := fun hh => hxa hh.symm
      simp only [hne, decide_eq_false, if_neg, Bool.false_eq_true, not_false_iff]
      exact ih (List.nodup_cons.mp hnd).2 hha

/-! ## Lemmas on the calendar builder -/

theorem filter_flatMap {α β : Type} (l : List α) (g : α → List β) (p : β → Bool) :
    (l.flatMap g).filter p = l.flatMap (fun x => (g x).filter p) := by
  induction l with
  | nil => rfl
  | cons x xs ih => rw [List.flatMap_cons, List.flatMap_cons, List.filter_append, ih]

theorem stackStart_mem_stockpiles {supplies : List SupplyRow} {s : String} {st : Int}
    (h : stackStart supplies s = some st) : s ∈ stockpiles supplies := by
  have hmem := listMin_mem h
  rcases List.mem_filterMap.mp hmem with ⟨r, hr, _⟩
  have hr1 : r ∈ supplies := (List.mem_filter.mp hr).1
  have hr2 : r.stock = s := by simpa using (List.mem_filter.mp hr).2
  exact mem_firstApp.mpr (hr2 ▸ List.mem_map_of_mem (·.stock) hr1)

theorem buildCalendar_eq_flatMap {fires : List FireRow} {temps : List TemperatureRow}
    {supplies : List SupplyRow} {maxD : Int}
    (hmax : maxDate fires temps supplies = some maxD) :
    buildCalendar fires temps supplies = (stockpiles supplies).flatMap (calBlock supplies maxD) := by
  rw [buildCalendar, hmax]
  rfl

theorem calBlock_filter_ne {supplies : List SupplyRow} {maxD : Int} {x s : String}
    (hxs : x ≠ s) : (calBlock supplies maxD x).filter (fun r => r.stock = s) = [] := by
  rw [calBlock]
  cases hx : stackStart supplies x with
  | none => rfl
  | some st =>
    rw [List.eq_nil_iff_forall_not_mem]
    intro r hr
    have h1 := (List.mem_filter.mp hr).1
    have h2 : r.stock = s := by simpa using (List.mem_filter.mp hr).2
    rcases List.mem_map.mp h1 with ⟨d, _, hd⟩
    apply hxs
    rw [← hd] at h2
    exact h2

theorem buildCalendar_filter_none {fires : List FireRow} {temps : List TemperatureRow}
    {supplies : List SupplyRow} {maxD : Int} {s : String}
    (hmax : maxDate fires temps supplies = some maxD)
    (hst : stackStart supplies s = none) :
    (buildCalendar fires temps supplies).filter (fun r => r.stock = s) = [] := by
  rw [buildCalendar_eq_flatMap hmax, filter_flatMap]
  refine flatMap_eq_nil_of _ _ (fun x _ => ?_)
  by_cases hxs : x = s
  · subst hxs
    rw [calBlock, hst]
    rfl
  · exact calBlock_filter_ne hxs

theorem buildCalendar_filter_some {fires : List FireRow} {temps : List TemperatureRow}
    {supplies : List SupplyRow} {maxD st : Int} {s : String}
    (hmax : maxDate fires temps supplies = some maxD)
    (hst : stackStart supplies s = some st) :
    (buildCalendar fires temps supplies).filter (fun r => r.stock = s) =
      (dateRange st maxD).map (fun d => ⟨s, d, 0⟩) := by
  rw [buildCalendar_eq_flatMap hmax, filter_flatMap]
  have hcol : (stockpiles supplies).flatMap (fun x => (calBlock supplies maxD x).filter (fun r => r.stock = s)) =
      (calBlock supplies maxD s).filter (fun r => r.stock = s) :=
    flatMap_eq_of_single (nodup_firstApp _) (stackStart_mem_stockpiles hst)
      (fun x _ hxs => calBlock_filter_ne hxs)
  rw [hcol, calBlock, hst]
  refine List.filter_eq_self.mpr (fun r hr => ?_)
  rcases List.mem_map.mp hr with ⟨d, _, hd⟩
  rw [← hd]
  simp

theorem stackStart_le_maxDate {fires : List FireRow} {temps : List TemperatureRow}
    {supplies : List SupplyRow} {s : String} {st maxD : Int}
    (hst : stackStart supplies s = some st)
    (hmax : maxDate fires temps supplies = some maxD) : st ≤ maxD := by
  have hmem := listMin_mem hst
  rcases List.mem_filterMap.mp hmem with ⟨r, hr, hu⟩
  have hr1 : r ∈ supplies := (List.mem_filter.mp hr).1
  have hx : st ∈ unloadDates supplies := List.mem_filterMap.mpr ⟨r, hr1, hu⟩
  rcases listMax_exists_of_mem hx with ⟨u, hu2⟩
  have hle : st ≤ u := listMax_le_of_mem hx hu2
  have humem : u ∈ boundaryCandidates fires temps supplies := by
    rw [boundaryCandidates]
    refine List.mem_filterMap.mpr ⟨some u, ?_, rfl⟩
    simp [hu2]
  rw [maxDate] at hmax
  exact le_trans hle (listMax_le_of_mem humem hmax)

theorem dateRange_length (a b : Int) : (dateRange a b).length = (b + 1 - a).toNat := by
  simp [dateRange]

theorem dateRange_length_pos {a b : Int} (h : a ≤ b) : 0 < (dateRange a b).length := by
  rw [dateRange_length]
  omega

/-! ## Claim C1: the calendar of each stockpile -/

/-- C1 (amended).  For every stockpile with a resolvable earliest
inbound date, the produced calendar is the contiguous daily sequence
from that date up to the single shared end boundary `max_date` — the
latest date observed across the fire end dates, the temperature act
dates and the supply unload/load dates.  Weather dates are NOT part of
the boundary (this is the amendment; the claim as stated, with the
boundary over all four sources including weather, is refuted by
`calendar_ignores_weather_dates`).  Stockpiles with no resolvable start
date are skipped. -/
theorem calendar_per_stockpile (fires : List FireRow) (temps : List TemperatureRow)
    (supplies : List SupplyRow) (maxD : Int)
    (hmax : maxDate fires temps supplies = some maxD) :
    (∀ s st, stackStart supplies s = some st →
      ((buildCalendar fires temps supplies).filter (fun r => r.stock = s)).map (·.date) =
        dateRange st maxD)
    ∧ (∀ s, stackStart supplies s = none →
      (buildCalendar fires temps supplies).filter (fun r => r.stock = s) = []) := by
  constructor
  · intro s st hst
    rw [buildCalendar_filter_some hmax hst, List.map_map]
    have hcomp : ((fun r : CalRow => r.date) ∘ fun d => (⟨s, d, 0⟩ : CalRow)) = id := rfl
    rw [hcomp, List.map_id]
  · intro s hst
    exact buildCalendar_filter_none hmax hst

/-- Instance of `calendar_per_stockpile` on a concrete input:
stockpile `A` (earliest inbound day 0) receives the range `0..3`,
stockpile `B` (unresolvable inbound date) is skipped. -/
theorem calendar_per_stockpile_inst :
    ((buildCalendar [] [] exSuppliesTwo).filter (fun r => r.stock = "A")).map (·.date) =
      dateRange 0 3 ∧
    (buildCalendar [] [] exSuppliesTwo).filter (fun r => r.stock = "B") = [] := by
  have h := calendar_per_stockpile [] [] exSuppliesTwo 3 (by decide)
  exact ⟨h.1 "A" 0 (by decide), h.2 "B" (by decide)⟩

/-- Counterexample to C1 as stated: with a weather record on day 20 and
every other date at day 0, the claimed boundary (`specMaxDate`, over all
four sources) is day 20, but the produced calendar of stockpile `A`
stops at day 0 — the code never consults weather dates. -/
theorem calendar_ignores_weather_dates :
    specMaxDate [] [] exSuppliesA exWeatherLate = some 20 ∧
    stackStart exSuppliesA "A" = some 0 ∧
    ((buildCalendar [] [] exSuppliesA).filter (fun r => r.stock = "A")).map (·.date) = [0] ∧
    [(0 : Int)] ≠ dateRange 0 20 := by
  refine ⟨by decide, by decide, by decide, by decide⟩

/-! ## Lemmas on the label assigner -/

theorem assignLabels_eq_map (fires : List FireRow) (cal : List CalRow) :
    assignLabels fires cal =
      cal.map (fun r =>
        if fires.any (fun f => fireMatches f r.stock r.date) then { r with y3d := 1 } else r) := by
  induction fires generalizing cal with
  | nil =>
    rw [assignLabels, List.foldl_nil]
    have : (fun r : CalRow =>
        if ([] : List FireRow).any (fun f => fireMatches f r.stock r.date) then { r with y3d := 1 } else r) =
        fun r => r := by
      funext r
      simp
    rw [this, List.map_id']
  | cons f fs ih =>
    rw [assignLabels, List.foldl_cons]
    have h1 : List.foldl
        (fun acc g =>
          acc.map (fun r => if fireMatches g r.stock r.date then { r with y3d := 1 } else r))
        (cal.map (fun r => if fireMatches f r.stock r.date then { r with y3d := 1 } else r)) fs =
        assignLabels fs (cal.map (fun r => if fireMatches f r.stock r.date then { r with y3d := 1 } else r)) := rfl
    rw [h1, ih, List.map_map]
    refine List.map_congr_left (fun r _ => ?_)
    simp only [Function.comp]
    cases hc : fireMatches f r.stock r.date with
    | true =>
      cases hc2 : fs.any (fun g => fireMatches g r.stock r.date) with
      | true => simp [hc, hc2, List.any_cons]
      | false => simp [hc, hc2, List.any_cons]
    | false =>
      cases hc2 : fs.any (fun g => fireMatches g r.stock r.date) with
      | true => simp [hc, hc2, List.any_cons]
      | false => simp [hc, hc2, List.any_cons]

theorem fireMatches_iff {f : FireRow} {s : String} {d : Int} :
    fireMatches f s d = true ↔
      ∃ D, f.stock = some s ∧ f.start = some D ∧ D - 3 ≤ d ∧ d ≤ D - 1 := by
  rcases f with ⟨fs, fst, ffin⟩
  cases fs with
  | none => simp [fireMatches]
  | some s2 =>
    cases fst with
    | none => simp [fireMatches]
    | some D =>
      simp only [fireMatches, decide_eq_true_eq, Option.some.injEq]
      constructor
      · rintro ⟨h1, h2, h3⟩
        exact ⟨D, by rw [h1], rfl, h2, h3⟩
      · rintro ⟨D2, h1, h2, h3, h4⟩
        cases h2
        exact ⟨h1, h3, h4⟩

theorem buildCalendar_y3d_zero {fires : List FireRow} {temps : List TemperatureRow}
    {supplies : List SupplyRow} {r : CalRow}
    (hr : r ∈ buildCalendar fires temps supplies) : r.y3d = 0 := by
  rw [buildCalendar] at hr
  cases hmax : maxDate fires temps supplies with
  | none => rw [hmax] at hr; cases hr
  | some maxD =>
    rw [hmax] at hr
    rcases List.mem_flatMap.mp hr with ⟨s, _, hblock⟩
    cases hst : stackStart supplies s with
    | none => rw [hst] at hblock; cases hblock
    | some st =>
      rw [hst] at hblock
      rcases List.mem_map.mp hblock with ⟨d, _, hd⟩
      rw [← hd]

/-! ## Claim C3: the fire label windows -/

/-- C3.  Every row of the labeled calendar carries label at most 1, and
carries label exactly 1 precisely when some fire event with a resolvable
stockpile and start date `D` matches the row: same stockpile and row
date inside `[D-3, D-1]`.  Overlapping windows therefore produce the
union with label exactly 1 (never more, never decremented), a single
fire marks exactly the calendar days `D-3, D-2, D-1` of its stockpile,
and every row outside all windows keeps label 0. -/
theorem fire_window_labels (fires : List FireRow) (temps : List TemperatureRow)
    (supplies : List SupplyRow) :
    ∀ r ∈ assignLabels fires (buildCalendar fires temps supplies),
      r.y3d ≤ 1 ∧
      (r.y3d = 1 ↔ ∃ f ∈ fires, ∃ D, f.stock = some r.stock ∧ f.start = some D ∧
        D - 3 ≤ r.date ∧ r.date ≤ D - 1) := by
  intro r hr
  rw [assignLabels_eq_map] at hr
  rcases List.mem_map.mp hr with ⟨r0, hr0, heq⟩
  have h0 : r0.y3d = 0 := buildCalendar_y3d_zero hr0
  cases hany : (fires.any (fun f => fireMatches f r0.stock r0.date)) with
  | true =>
    rw [hany, if_pos rfl] at heq
    have hstock : r.stock = r0.stock := by rw [← heq]
    have hdate : r.date = r0.date := by rw [← heq]
    have hy : r.y3d = 1 := by rw [← heq]
    refine ⟨by rw [hy], ?_⟩
    rw [hy, hstock, hdate]
    simp only [true_iff]
    rcases List.any_eq_true.mp hany with ⟨f, hf, hmatch⟩
    rcases fireMatches_iff.mp hmatch with ⟨D, hD⟩
    exact ⟨f, hf, D, hD⟩
  | false =>
    rw [hany] at heq
    simp only [Bool.false_eq_true, if_false] at heq
    have hstock : r.stock = r0.stock := by rw [← heq]
    have hdate : r.date = r0.date := by rw [← heq]
    have hy : r.y3d = 0 := by rw [← heq]; exact h0
    refine ⟨by rw [hy]; exact Nat.zero_le 1, ?_⟩
    rw [hy, hstock, hdate]
    constructor
    · intro h; cases h
    · rintro ⟨f, hf, D, h1, h2, h3, h4⟩
      exfalso
      have : fires.any (fun f => fireMatches f r0.stock r0.date) = true :=
        List.any_eq_true.mpr ⟨f, hf, fireMatches_iff.mpr ⟨D, h1, h2, h3, h4⟩⟩
      rw [hany] at this
      cases this

/-- Instance of `fire_window_labels`: with a fire starting day 3 on
stockpile `A` (calendar days 0..4), the row of day 0 is labeled 1 and
the characterisation holds for it. -/
theorem fire_window_labels_inst :
    (⟨"A", 0, 1⟩ : CalRow).y3d ≤ 1 ∧
    ((⟨"A", 0, 1⟩ : CalRow).y3d = 1 ↔ ∃ f ∈ exFires3, ∃ D,
      f.stock = some (⟨"A", 0, 1⟩ : CalRow).stock ∧ f.start = some D ∧
      D - 3 ≤ (⟨"A", 0, 1⟩ : CalRow).date ∧ (⟨"A", 0, 1⟩ : CalRow).date ≤ D - 1) :=
  fire_window_labels exFires3 [] exSuppliesA ⟨"A", 0, 1⟩ (by decide)

/-! ## Lemmas on the metadata enrichment -/

theorem stackInfoTable_keys (supplies : List SupplyRow) :
    (stackInfoTable supplies).map (·.stock) = stockpiles supplies := by
  rw [stackInfoTable, List.map_map]
  have : ((fun i : StackInfo => i.stock) ∘ fun s =>
      (⟨s, stackStart supplies s,
        ((supplies.filter (fun r => r.stock = s)).map (·.grade)).head?⟩ : StackInfo)) = id := rfl
  rw [this, List.map_id]

theorem addMetadata_cond (supplies : List SupplyRow) (r : CalRow) :
    ((stackInfoTable supplies).filter (fun i => r.stock = i.stock)).length ≤ 1 := by
  refine filter_length_le_one (k := fun i : StackInfo => some i.stock) ?_ _ r.stock ?_
  · have h1 : (fun i : StackInfo => some i.stock) = some ∘ (fun i : StackInfo => i.stock) := rfl
    rw [h1, List.filterMap_eq_map, stackInfoTable_keys, stockpiles]
    exact nodup_firstApp _
  · intro b hb
    have : r.stock = b.stock := by simpa using hb
    rw [this]

theorem addMetadata_eq_map (supplies : List SupplyRow) (cal : List CalRow) :
    addMetadata supplies cal = cal.map (fun r =>
      { stock := r.stock, date := r.date, y3d := r.y3d,
        grade := (((stackInfoTable supplies).filter (fun i => r.stock = i.stock)).head?).bind (·.grade),
        formation := (((stackInfoTable supplies).filter (fun i => r.stock = i.stock)).head?).bind (·.formation),
        age := ((((stackInfoTable supplies).filter (fun i => r.stock = i.stock)).head?).bind (·.formation)).map
          (fun f => r.date - f) }) := by
  rw [addMetadata, mergeLeft_eq_map (fun a => addMetadata_cond supplies a), List.map_map]
  rfl

theorem stackInfo_lookup {supplies : List SupplyRow} {s : String}
    (hs : s ∈ stockpiles supplies) :
    ((stackInfoTable supplies).filter (fun i => s = i.stock)).head? =
      some ⟨s, stackStart supplies s,
        ((supplies.filter (fun r => r.stock = s)).map (·.grade)).head?⟩ := by
  rw [stackInfoTable, List.filter_map]
  have hcomp : ((fun i : StackInfo => decide (s = i.stock)) ∘ fun s2 =>
      (⟨s2, stackStart supplies s2,
        ((supplies.filter (fun r => r.stock = s2)).map (·.grade)).head?⟩ : StackInfo)) =
      fun x => decide (s = x) := rfl
  have hnd : (stockpiles supplies).Nodup := by rw [stockpiles]; exact nodup_firstApp _
  rw [hcomp, filter_eq_singleton_of_nodup hnd hs]
  rfl

/-- Filtering commutes with a row map that preserves the tested field. -/
theorem filter_map_pres {α β : Type} {f : α → β} {p : α → Bool} {q : β → Bool}
    (h : ∀ a, q (f a) = p a) (l : List α) :
    (l.map f).filter q = (l.filter p).map f := by
  rw [List.filter_map]
  have : (q ∘ f) = p := funext h
  rw [this]

/-! ## Claim C5: the age column -/

/-- C5.  For every stockpile in the calendar (resolvable start `st`),
the age column of its rows, in date order, is exactly `0, 1, 2, ...`:
the first row has age 0, ages strictly increase (hence never decrease)
and are never negative; the block is non-empty, so the first row
exists. -/
theorem age_zero_then_increasing (fires : List FireRow) (temps : List TemperatureRow)
    (supplies : List SupplyRow) (s : String) (st maxD : Int)
    (hst : stackStart supplies s = some st)
    (hmax : maxDate fires temps supplies = some maxD) :
    ((addMetadata supplies (assignLabels fires (buildCalendar fires temps supplies))).filter
        (fun r => r.stock = s)).map (·.age) =
      (List.range (dateRange st maxD).length).map (fun k : Nat => some (k : Int))
    ∧ 0 < (dateRange st maxD).length := by
  have hsmem : s ∈ stockpiles supplies := stackStart_mem_stockpiles hst
  constructor
  · rw [addMetadata_eq_map, assignLabels_eq_map]
    rw [filter_map_pres (p := fun r : CalRow => r.stock = s) (fun a => rfl)]
    rw [filter_map_pres (p := fun r : CalRow => r.stock = s) (fun a => by
      cases hc : (fires.any (fun f => fireMatches f a.stock a.date)) <;> simp [hc])]
    rw [buildCalendar_filter_some hmax hst, List.map_map, List.map_map, List.map_map]
    rw [dateRange_length, dateRange, List.map_map]
    refine List.map_congr_left (fun k _ => ?_)
    simp only [Function.comp_apply]
    cases hc : (fires.any (fun f => fireMatches f (⟨s, st + (k : Int), 0⟩ : CalRow).stock
        (⟨s, st + (k : Int), 0⟩ : CalRow).date)) <;>
      simp only [hc, if_pos, Bool.false_eq_true, if_false] <;>
      rw [stackInfo_lookup hsmem, hst] <;>
      simp
  · exact dateRange_length_pos (stackStart_le_maxDate hst hmax)

/-- Instance of `age_zero_then_increasing` on the scenario input:
stockpile `A`, start day 0, boundary day 31. -/
theorem age_zero_then_increasing_inst :
    ((addMetadata exSuppliesScenario
        (assignLabels [] (buildCalendar [] [] exSuppliesScenario))).filter
        (fun r => r.stock = "A")).map (·.age) =
      (List.range (dateRange 0 31).length).map (fun k : Nat => some (k : Int))
    ∧ 0 < (dateRange 0 31).length :=
  age_zero_then_increasing [] [] exSuppliesScenario "A" 0 31 (by decide) (by decide)

/-! ## Lemmas on the mass enrichment -/

theorem massDaily_keys (supplies : List SupplyRow) :
    (massDaily supplies).map (fun m => (m.1, m.2.1)) =
      firstApp ((massEvents supplies).map (fun e => (e.1, e.2.1))) := by
  rw [massDaily, List.map_map]
  have : ((fun m : String × Int × ℚ => (m.1, m.2.1)) ∘ fun k : String × Int =>
      (k.1, k.2,
        (((massEvents supplies).filter (fun e => e.1 = k.1 ∧ e.2.1 = k.2)).map
          (fun e => e.2.2)).sum)) = id := rfl
  rw [this, List.map_id]

theorem addMassDelta_cond (supplies : List SupplyRow) (r : MetaRow) :
    ((massDaily supplies).filter (fun m => r.stock = m.1 ∧ r.date = m.2.1)).length ≤ 1 := by
  refine filter_length_le_one (k := fun m : String × Int × ℚ => some (m.1, m.2.1)) ?_ _
    (r.stock, r.date) ?_
  · have h1 : (fun m : String × Int × ℚ => some (m.1, m.2.1)) =
        some ∘ (fun m : String × Int × ℚ => (m.1, m.2.1)) := rfl
    rw [h1, List.filterMap_eq_map, massDaily_keys]
    exact nodup_firstApp _
  · intro b hb
    have hb2 : r.stock = b.1 ∧ r.date = b.2.1 := by simpa using hb
    rw [hb2.1, hb2.2]

theorem addMassDelta_eq_map (supplies : List SupplyRow) (rows : List MetaRow) :
    addMassDelta supplies rows = rows.map (fun r =>
      { stock := r.stock, date := r.date, y3d := r.y3d,
        grade := r.grade, formation := r.formation, age := r.age,
        deltaMass := ((((massDaily supplies).filter
          (fun m => r.stock = m.1 ∧ r.date = m.2.1)).head?).map (fun m => m.2.2)).getD 0,
        mass := ((((massDaily supplies).filter
          (fun m => r.stock = m.1 ∧ r.date = m.2.1)).head?).map (fun m => m.2.2)).getD 0 }) := by
  rw [addMassDelta, mergeLeft_eq_map (fun a => addMassDelta_cond supplies a), List.map_map]
  rfl

theorem massDelta_lookup (supplies : List SupplyRow) (s : String) (d : Int) :
    ((((massDaily supplies).filter
        (fun m => s = m.1 ∧ d = m.2.1)).head?).map (fun m => m.2.2)).getD 0 =
      massDelta supplies s d := by
  rw [massDaily, List.filter_map]
  have hcomp : ((fun m : String × Int × ℚ => decide (s = m.1 ∧ d = m.2.1)) ∘
      fun k : String × Int =>
        (k.1, k.2,
          (((massEvents supplies).filter (fun e => e.1 = k.1 ∧ e.2.1 = k.2)).map
            (fun e => e.2.2)).sum)) = fun k : String × Int => decide (s = k.1 ∧ d = k.2) := rfl
  rw [hcomp]
  have hfc : (firstApp ((massEvents supplies).map (fun e => (e.1, e.2.1)))).filter
      (fun k : String × Int => decide (s = k.1 ∧ d = k.2)) =
      (firstApp ((massEvents supplies).map (fun e => (e.1, e.2.1)))).filter
      (fun k : String × Int => decide ((s, d) = k)) := by
    refine List.filter_congr (fun k _ => ?_)
    rw [decide_eq_decide]
    constructor
    · rintro ⟨h1, h2⟩
      exact Prod.ext h1 h2
    · rintro rfl
      exact ⟨rfl, rfl⟩
  rw [hfc]
  by_cases hmem : (s, d) ∈ firstApp ((massEvents supplies).map (fun e => (e.1, e.2.1)))
  · rw [filter_eq_singleton_of_nodup (nodup_firstApp _) hmem]
    rfl
  · have hnil : (firstApp ((massEvents supplies).map (fun e => (e.1, e.2.1)))).filter
        (fun k : String × Int => decide ((s, d) = k)) = [] := by
      rw [List.eq_nil_iff_forall_not_mem]
      intro k hk
      have h1 := (List.mem_filter.mp hk).1
      have h2 : (s, d) = k := by simpa using (List.mem_filter.mp hk).2
      exact hmem (h2 ▸ h1)
    rw [hnil]
    have hev : (massEvents supplies).filter (fun e => e.1 = s ∧ e.2.1 = d) = [] := by
      rw [List.eq_nil_iff_forall_not_mem]
      intro e he
      have h1 := (List.mem_filter.mp he).1
      have h2 : e.1 = s ∧ e.2.1 = d := by simpa using (List.mem_filter.mp he).2
      apply hmem
      apply mem_firstApp.mpr
      refine List.mem_map.mpr ⟨e, h1, ?_⟩
      rw [h2.1, h2.2]
    rw [massDelta, hev]
    rfl

theorem cumMassGo_keys (rows : List MassRow) : ∀ (seen : List MassRow),
    (cumMassGo seen rows).map (fun r => (r.stock, r.date)) =
      rows.map (fun r => (r.stock, r.date)) := by
  induction rows with
  | nil => intro seen; rfl
  | cons r rs ih =>
    intro seen
    rw [cumMassGo, List.map_cons, List.map_cons, ih]

theorem cumMassGo_filter (s : String) : ∀ (rows seen : List MassRow),
    (cumMassGo seen rows).filter (fun x => x.stock = s) =
      localCumGo (((seen.filter (fun x => x.stock = s)).map (·.deltaMass)).sum)
        (rows.filter (fun x => x.stock = s)) := by
  intro rows
  induction rows with
  | nil => intro seen; rfl
  | cons r rs ih =>
    intro seen
    have hsingle_pos : r.stock = s → ([r].filter (fun x => x.stock = s)) = [r] := by
      intro hr
      rw [List.filter_cons_of_pos (by simpa using hr)]
      rfl
    have hsingle_neg : ¬ r.stock = s → ([r].filter (fun x => x.stock = s)) = [] := by
      intro hr
      rw [List.filter_cons_of_neg (by simpa using hr)]
      rfl
    rw [cumMassGo]
    by_cases hr : r.stock = s
    · rw [List.filter_cons_of_pos (by simpa using hr), List.filter_cons_of_pos (by simpa using hr)]
      rw [ih, localCumGo, List.cons.injEq]
      have hfseen : (seen ++ [r]).filter (fun x => x.stock = r.stock) =
          seen.filter (fun x => x.stock = s) ++ [r] := by
        rw [hr, List.filter_append, hsingle_pos hr]
      have hsum : (((seen ++ [r]).filter (fun x => x.stock = r.stock)).map (·.deltaMass)).sum =
          ((seen.filter (fun x => x.stock = s)).map (·.deltaMass)).sum + r.deltaMass := by
        rw [hfseen, List.map_append, List.sum_append]
        simp
      constructor
      · rw [hsum]
      · have hseen2 : (seen ++ [r]).filter (fun x => x.stock = s) =
            seen.filter (fun x => x.stock = s) ++ [r] := by
          rw [List.filter_append, hsingle_pos hr]
        rw [hseen2, List.map_append, List.sum_append]
        simp
    · rw [List.filter_cons_of_neg (by simpa using hr), List.filter_cons_of_neg (by simpa using hr)]
      rw [ih]
      have hseen2 : (seen ++ [r]).filter (fun x => x.stock = s) =
          seen.filter (fun x => x.stock = s) := by
        rw [List.filter_append, hsingle_neg hr, List.append_nil]
      rw [hseen2]

theorem localCumGo_map_mass : ∀ (l : List MassRow) (c : ℚ),
    (localCumGo c l).map (·.mass) =
      (List.range l.length).map (fun k : Nat => c + ((l.take (k + 1)).map (·.deltaMass)).sum) := by
  intro l
  induction l with
  | nil => intro c; rfl
  | cons r rs ih =>
    intro c
    rw [localCumGo, List.map_cons, ih, List.length_cons, List.range_succ_eq_map, List.map_cons,
      List.map_map, List.cons.injEq]
    constructor
    · rw [List.take_succ_cons, List.take_zero]
      simp
    · refine List.map_congr_left (fun k _ => ?_)
      simp only [Function.comp_apply]
      rw [List.take_succ_cons, List.map_cons, List.sum_cons]
      ring

theorem dateRange_take {a b : Int} {k : Nat} (h : k < (dateRange a b).length) :
    (dateRange a b).take (k + 1) = dateRange a (a + (k : Int)) := by
  rw [dateRange_length] at h
  rw [dateRange, dateRange, ← List.map_take, List.take_range]
  have h1 : min (k + 1) (b + 1 - a).toNat = k + 1 := by omega
  have h2 : (a + (k : Int) + 1 - a).toNat = k + 1 := by omega
  rw [h1, h2]

/-! ## Claim C4: cumulative mass -/

/-- C4 (amended).  For every (stockpile, day) row of the calendar, the
cumulative mass equals the sum of the signed per-day deltas (inbound
positive, outbound negative, same-day events summed) of that stockpile
over the CALENDAR days, i.e. from the stockpile's first inbound date up
to and including the row's day.  Days with no event contribute 0, and
nothing prevents the value from going negative.  The amendment is the
lower bound: an event dated before the stockpile's first inbound date is
dropped by the calendar merge instead of being summed
(`mass_drops_events_before_start`), so the claimed sum over ALL dates up
to the day does not hold in general. -/
theorem mass_cumsum_from_calendar_start (fires : List FireRow) (temps : List TemperatureRow)
    (supplies : List SupplyRow) (s : String) (st maxD : Int)
    (hst : stackStart supplies s = some st)
    (hmax : maxDate fires temps supplies = some maxD) :
    ((addCumMass (addMassDelta supplies (addMetadata supplies
        (assignLabels fires (buildCalendar fires temps supplies))))).filter
      (fun r => r.stock = s)).map (·.mass) =
      (dateRange st maxD).map
        (fun d => ((dateRange st d).map (fun e => massDelta supplies s e)).sum) := by
  have hsmem : s ∈ stockpiles supplies := stackStart_mem_stockpiles hst
  rw [addCumMass, cumMassGo_filter s _ []]
  simp only [List.filter_nil, List.map_nil, List.sum_nil]
  rw [addMassDelta_eq_map, addMetadata_eq_map, assignLabels_eq_map]
  rw [filter_map_pres (p := fun r : MetaRow => r.stock = s) (fun a => rfl)]
  rw [filter_map_pres (p := fun r : CalRow => r.stock = s) (fun a => rfl)]
  rw [filter_map_pres (p := fun r : CalRow => r.stock = s) (fun a => by
    cases hc : (fires.any (fun f => fireMatches f a.stock a.date)) <;> simp [hc])]
  rw [buildCalendar_filter_some hmax hst]
  rw [List.map_map, List.map_map, List.map_map]
  rw [localCumGo_map_mass, List.length_map, dateRange_length]
  conv_rhs => rw [dateRange, List.map_map]
  refine List.map_congr_left (fun k hk => ?_)
  have hk2 : k < (dateRange st maxD).length := by
    rw [dateRange_length]
    exact List.mem_range.mp hk
  simp only [Function.comp_apply]
  rw [← List.map_take, dateRange_take hk2, zero_add]
  rw [List.map_map]
  refine congrArg List.sum ?_
  refine List.map_congr_left (fun d _ => ?_)
  simp only [Function.comp_apply]
  cases hc : (fires.any (fun f =>
      fireMatches f (⟨s, d, 0⟩ : CalRow).stock (⟨s, d, 0⟩ : CalRow).date)) <;>
    simp only [hc, if_pos, Bool.false_eq_true, if_false] <;>
    rw [massDelta_lookup]

/-- Instance of `mass_cumsum_from_calendar_start` on the scenario
input (inbound 100 t day 0, outbound 40 t day 31). -/
theorem mass_cumsum_from_calendar_start_inst :
    ((addCumMass (addMassDelta exSuppliesScenario (addMetadata exSuppliesScenario
        (assignLabels [] (buildCalendar [] [] exSuppliesScenario))))).filter
      (fun r => r.stock = "A")).map (·.mass) =
      (dateRange 0 31).map
        (fun d => ((dateRange 0 d).map (fun e => massDelta exSuppliesScenario "A" e)).sum) :=
  mass_cumsum_from_calendar_start [] [] exSuppliesScenario "A" 0 31 (by decide) (by decide)

/-- Counterexample to C4 as stated: with an outbound event (40 t, day 5)
dated before the first inbound event (100 t, day 10), the pipeline's
calendar holds the single row (A, day 10) with cumulative mass 100 — the
pre-calendar departure is dropped by the merge — while the sum of ALL
signed deltas up to day 10 (`specCumulativeMass`, the claim as worded)
is 60. -/
theorem mass_drops_events_before_start :
    ((addCumMass (addMassDelta exSuppliesEarlyOut (addMetadata exSuppliesEarlyOut
        (assignLabels [] (buildCalendar [] [] exSuppliesEarlyOut))))).map
      (fun r => (r.date, r.mass))) = [(10, 100)] ∧
    specCumulativeMass exSuppliesEarlyOut "A" 10 = 60 ∧
    (100 : ℚ) ≠ 60 := by
  refine ⟨?_, ?_, by norm_num⟩
  · norm_num [addCumMass, cumMassGo, addMassDelta, addMetadata, assignLabels, buildCalendar,
      maxDate, boundaryCandidates, listMax, listMin, fireEndDates, tempActDates, unloadDates,
      loadDates, stockpiles, firstApp, stackStart, dateRange, mergeLeft, massDaily, massEvents,
      stackInfoTable, massDelta, exSuppliesEarlyOut, List.range_succ, fireMatches,
      List.filterMap_cons, List.filter_cons, List.sum_cons]
  · norm_num [specCumulativeMass, massEvents, exSuppliesEarlyOut, List.filterMap_cons,
      List.filter_cons, List.sum_cons]

/-! ## Key preservation through the enrichment stages -/

theorem assignLabels_keys (fires : List FireRow) (cal : List CalRow) :
    (assignLabels fires cal).map (fun r => (r.stock, r.date)) =
      cal.map (fun r => (r.stock, r.date)) := by
  rw [assignLabels_eq_map, List.map_map]
  refine List.map_congr_left (fun r _ => ?_)
  simp only [Function.comp_apply]
  cases hc : (fires.any (fun f => fireMatches f r.stock r.date)) <;> simp [hc]

theorem addMetadata_keys (supplies : List SupplyRow) (cal : List CalRow) :
    (addMetadata supplies cal).map (fun r => (r.stock, r.date)) =
      cal.map (fun r => (r.stock, r.date)) := by
  rw [addMetadata, List.map_map]
  show (mergeLeft cal (stackInfoTable supplies) (fun r i => r.stock = i.stock)).map
      ((fun r : CalRow => (r.stock, r.date)) ∘ Prod.fst) = cal.map (fun r => (r.stock, r.date))
  rw [← List.map_map, mergeLeft_keys (fun a => addMetadata_cond supplies a)]

theorem addMassDelta_keys (supplies : List SupplyRow) (rows : List MetaRow) :
    (addMassDelta supplies rows).map (fun r => (r.stock, r.date)) =
      rows.map (fun r => (r.stock, r.date)) := by
  rw [addMassDelta, List.map_map]
  show (mergeLeft rows (massDaily supplies)
      (fun r m => r.stock = m.1 ∧ r.date = m.2.1)).map
      ((fun r : MetaRow => (r.stock, r.date)) ∘ Prod.fst) = rows.map (fun r => (r.stock, r.date))
  rw [← List.map_map, mergeLeft_keys (fun a => addMassDelta_cond supplies a)]

theorem addCumMass_keys (rows : List MassRow) :
    (addCumMass rows).map (fun r => (r.stock, r.date)) =
      rows.map (fun r => (r.stock, r.date)) :=
  cumMassGo_keys rows []

theorem tempDaily_keys (temps : List TemperatureRow) :
    (tempDaily temps).map (fun m => (m.1, m.2.1)) =
      firstApp (temps.filterMap (fun r => r.actDate.map (fun d => (r.stock, d)))) := by
  rw [tempDaily, List.map_map]
  have : ((fun m : String × Int × ℚ => (m.1, m.2.1)) ∘ fun k : String × Int =>
      (k.1, k.2,
        ((listMaxQ ((temps.filter
          (fun r => r.stock = k.1 ∧ r.actDate = some k.2)).map (·.maxTemp))).getD 0))) = id := rfl
  rw [this, List.map_id]

theorem addTempRaw_cond (temps : List TemperatureRow) (r : MassRow) :
    ((tempDaily temps).filter (fun m => r.stock = m.1 ∧ r.date = m.2.1)).length ≤ 1 := by
  refine filter_length_le_one (k := fun m : String × Int × ℚ => some (m.1, m.2.1)) ?_ _
    (r.stock, r.date) ?_
  · have h1 : (fun m : String × Int × ℚ => some (m.1, m.2.1)) =
        some ∘ (fun m : String × Int × ℚ => (m.1, m.2.1)) := rfl
    rw [h1, List.filterMap_eq_map, tempDaily_keys]
    exact nodup_firstApp _
  · intro b hb
    have hb2 : r.stock = b.1 ∧ r.date = b.2.1 := by simpa using hb
    rw [hb2.1, hb2.2]

theorem addTempRaw_keys (temps : List TemperatureRow) (rows : List MassRow) :
    (addTempRaw temps rows).map (fun r => (r.stock, r.date)) =
      rows.map (fun r => (r.stock, r.date)) := by
  rw [addTempRaw, List.map_map]
  show (mergeLeft rows (tempDaily temps)
      (fun r m => r.stock = m.1 ∧ r.date = m.2.1)).map
      ((fun r : MassRow => (r.stock, r.date)) ∘ Prod.fst) = rows.map (fun r => (r.stock, r.date))
  rw [← List.map_map, mergeLeft_keys (fun a => addTempRaw_cond temps a)]

theorem tempFillGo_keys (rows : List TempRow2) : ∀ (seen : List TempRow2),
    (tempFillGo seen rows).map (fun r => (r.stock, r.date)) =
      rows.map (fun r => (r.stock, r.date)) := by
  induction rows with
  | nil => intro seen; rfl
  | cons r rs ih =>
    intro seen
    rw [tempFillGo, List.map_cons, List.map_cons, ih]

theorem addTempFill_keys (rows : List TempRow2) :
    (addTempFill rows).map (fun r => (r.stock, r.date)) =
      rows.map (fun r => (r.stock, r.date)) :=
  tempFillGo_keys rows []

theorem mergeWeather_cond {weather : List WeatherRow}
    (hw : (weather.filterMap (·.date)).Nodup) (r : TempRow2) :
    (weather.filter (fun w => w.date = some r.date)).length ≤ 1 := by
  refine filter_length_le_one (k := fun w : WeatherRow => w.date) hw _ r.date ?_
  intro b hb
  simpa using hb

theorem mergeWeather_keys {weather : List WeatherRow}
    (hw : (weather.filterMap (·.date)).Nodup) (rows : List TempRow2) :
    (mergeWeather rows weather).map (fun r => (r.stock, r.date)) =
      rows.map (fun r => (r.stock, r.date)) := by
  rw [mergeWeather, List.map_map]
  show (mergeLeft rows weather (fun r w => w.date = some r.date)).map
      ((fun r : TempRow2 => (r.stock, r.date)) ∘ Prod.fst) = rows.map (fun r => (r.stock, r.date))
  rw [← List.map_map, mergeLeft_keys (fun a => mergeWeather_cond hw a)]

theorem weatherFillGo_keys (rows : List FullRow) :
    ∀ (mT mP mH cT cP cH : Option ℚ),
    (weatherFillGo mT mP mH cT cP cH rows).map (fun r => (r.stock, r.date)) =
      rows.map (fun r => (r.stock, r.date)) := by
  induction rows with
  | nil => intro mT mP mH cT cP cH; rfl
  | cons r rs ih =>
    intro mT mP mH cT cP cH
    rw [weatherFillGo, List.map_cons, List.map_cons, ih]

theorem fillWeather_keys (rows : List FullRow) :
    (fillWeather rows).map (fun r => (r.stock, r.date)) =
      rows.map (fun r => (r.stock, r.date)) :=
  weatherFillGo_keys rows _ _ _ none none none

/-! ## Nodup of the calendar keys -/

theorem dateRange_nodup (a b : Int) : (dateRange a b).Nodup := by
  rw [dateRange]
  refine List.Nodup.map ?_ (List.nodup_range _)
  intro i j hij
  have h2 : a + (i : Int) = a + (j : Int) := hij
  omega

theorem calendar_keys_nodup (fires : List FireRow) (temps : List TemperatureRow)
    (supplies : List SupplyRow) :
    ((buildCalendar fires temps supplies).map (fun r => (r.stock, r.date))).Nodup := by
  rw [buildCalendar]
  cases hmax : maxDate fires temps supplies with
  | none => exact List.nodup_nil
  | some maxD =>
    rw [List.map_flatMap]
    refine List.nodup_flatMap.mpr ⟨?_, ?_⟩
    · intro s _
      cases hst : stackStart supplies s with
      | none => exact List.nodup_nil
      | some st =>
        rw [List.map_map]
        refine List.Nodup.map ?_ (dateRange_nodup st maxD)
        intro d1 d2 h12
        simpa using congrArg Prod.snd h12
    · have hnd : (stockpiles supplies).Nodup := by rw [stockpiles]; exact nodup_firstApp _
      have hfst : ∀ (s : String) (k : String × Int),
          k ∈ (calBlock supplies maxD s).map (fun r => (r.stock, r.date)) → k.1 = s := by
        intro s k hk
        rw [calBlock] at hk
        cases hst : stackStart supplies s with
        | none => rw [hst] at hk; cases hk
        | some st =>
          rw [hst, List.map_map] at hk
          rcases List.mem_map.mp hk with ⟨d, _, hd⟩
          rw [← hd]
          rfl
      refine hnd.imp ?_
      intro s1 s2 hne
      intro k hk1 hk2
      have hb1 : k ∈ (calBlock supplies maxD s1).map (fun r => (r.stock, r.date)) := hk1
      have hb2 : k ∈ (calBlock supplies maxD s2).map (fun r => (r.stock, r.date)) := hk2
      exact hne ((hfst s1 k hb1) ▸ (hfst s2 k hb2))

/-! ## Claim C2: one row per (stockpile, date) -/

/-- C2 (amended).  The feature table keeps exactly one row per
(stockpile, date) pair through the metadata join, the mass merge, the
temperature merge and the weather merge, PROVIDED the concatenated
weather series has no duplicate (parseable) date.  The proviso is the
amendment: with a duplicated weather date the date-only left merge
multiplies the matching calendar rows instead of deduplicating or
aggregating them (`featureTable_dup_weather_dup_keys`). -/
theorem featureTable_keys_unique (fires : List FireRow) (temps : List TemperatureRow)
    (supplies : List SupplyRow) (weather : List WeatherRow)
    (hw : (weather.filterMap (·.date)).Nodup) :
    ((featureTable fires temps supplies weather).map (fun r => (r.stock, r.date)) =
      (buildCalendar fires temps supplies).map (fun r => (r.stock, r.date)))
    ∧ ((featureTable fires temps supplies weather).map (fun r => (r.stock, r.date))).Nodup := by
  have hkeys : (featureTable fires temps supplies weather).map (fun r => (r.stock, r.date)) =
      (buildCalendar fires temps supplies).map (fun r => (r.stock, r.date)) := by
    rw [featureTable, fillWeather_keys, mergeWeather_keys hw, addTempFill_keys, addTempRaw_keys,
      addCumMass_keys, addMassDelta_keys, addMetadata_keys, assignLabels_keys]
  exact ⟨hkeys, hkeys ▸ calendar_keys_nodup fires temps supplies⟩

/-- Instance of `featureTable_keys_unique`: one stockpile, one weather
record — the feature table has exactly the calendar's single key. -/
theorem featureTable_keys_unique_inst :
    ((featureTable [] [] exSuppliesA exWeatherOne).map (fun r => (r.stock, r.date)) =
      (buildCalendar [] [] exSuppliesA).map (fun r => (r.stock, r.date)))
    ∧ ((featureTable [] [] exSuppliesA exWeatherOne).map (fun r => (r.stock, r.date))).Nodup :=
  featureTable_keys_unique [] [] exSuppliesA exWeatherOne (by decide)

/-- Counterexample to C2 as stated: two weather records share day 0, and
the feature table then holds TWO rows with the key (A, day 0) — the
weather merge does not preserve uniqueness on duplicate weather dates. -/
theorem featureTable_dup_weather_dup_keys :
    (exWeatherDup.filterMap (·.date) = [0, 0]) ∧
    (featureTable [] [] exSuppliesA exWeatherDup).map (fun r => (r.stock, r.date)) =
      [("A", 0), ("A", 0)] ∧
    ¬ ((featureTable [] [] exSuppliesA exWeatherDup).map (fun r => (r.stock, r.date))).Nodup := by
  refine ⟨by decide, by decide, by decide⟩

/-! ## Claim C6: grade encoding round trip and the unseen sentinel -/

/-- C6.  A grade value seen during training encodes with the stored
encoder to a code whose decoding yields the original value, and at
inference a grade value that is not among the encoder's classes is
mapped to the sentinel `-1` (the per-element fallback; the function is
total, so no error is raised). -/
theorem grade_roundtrip_unseen_sentinel :
    ∀ (train : List String) (v w : String) (col : List Cell) (j : Nat),
    v ∈ train → w ∉ leClasses train → col[j]? = some (.str w) →
    (∃ i, leTransform (leClasses train) v = some i ∧ leInverse (leClasses train) i = some v)
    ∧ (encodeWithClasses (leClasses train) col)[j]? = some (.num (-1)) := by
  intro train v w col j hv hw hj
  have hvc : v ∈ leClasses train := by rw [leClasses]; exact mem_firstApp.mpr hv
  constructor
  · refine ⟨posOf v (leClasses train), ?_, ?_⟩
    · rw [leTransform, if_pos hvc]
    · rw [leInverse]
      exact getElem?_posOf hvc
  · have hwcol : Cell.str w ∈ col := by
      have := List.getElem?_eq_some_iff.mp hj
      rcases this with ⟨hlt, hget⟩
      exact hget ▸ List.getElem_mem hlt
    have hall : (col.all fun x =>
        match x with
        | .str s => decide (s ∈ leClasses train)
        | _ => false) = false := by
      cases hb : (col.all fun x =>
          match x with
          | .str s => decide (s ∈ leClasses train)
          | _ => false) with
      | false => rfl
      | true =>
        exfalso
        have := List.all_eq_true.mp hb (Cell.str w) hwcol
        simp only [decide_eq_true_eq] at this
        exact hw this
    rw [encodeWithClasses, hall]
    simp only [Bool.false_eq_true, if_false]
    rw [List.getElem?_map, hj]
    exact congrArg some (if_neg hw)

/-- Instance of `grade_roundtrip_unseen_sentinel`: training column
`["B", "A"]`, seen value `"B"`, unseen value `"C"`. -/
theorem grade_roundtrip_unseen_sentinel_inst :
    (∃ i, leTransform (leClasses ["B", "A"]) "B" = some i ∧
      leInverse (leClasses ["B", "A"]) i = some "B")
    ∧ (encodeWithClasses (leClasses ["B", "A"]) [Cell.str "C"])[0]? = some (Cell.num (-1)) :=
  grade_roundtrip_unseen_sentinel ["B", "A"] "B" "C" [Cell.str "C"] 0 (by decide) (by decide)
    (by decide)

/-! ## Claim C7: mean imputation over the predicted batch -/

/-- C7.  Inside `prepare_features_from_df`, a present column with at
least one numeric value (so its batch mean `m` exists) has every missing
cell replaced by exactly `m` — the mean of that very column over the
batch being predicted, no training statistic enters `cellColMean` — and
every non-missing cell left unchanged. -/
theorem imputation_batch_mean :
    ∀ (col : List Cell) (j : Nat) (q m : ℚ),
    cellColMean col = some m →
    ((col[j]? = some (.num q) → (fillnaMean col)[j]? = some (.num q))
    ∧ (col[j]? = some Cell.na → (fillnaMean col)[j]? = some (.num m))) := by
  intro col j q m hm
  rw [fillnaMean]
  cases hany : (col.any (fun x => x = Cell.na)) with
  | false =>
    simp only [Bool.false_eq_true, if_false]
    constructor
    · intro hj; exact hj
    · intro hj
      exfalso
      have hna : Cell.na ∈ col := by
        have := List.getElem?_eq_some_iff.mp hj
        rcases this with ⟨hlt, hget⟩
        exact hget ▸ List.getElem_mem hlt
      have : col.any (fun x => x = Cell.na) = true :=
        List.any_eq_true.mpr ⟨Cell.na, hna, by simp⟩
      rw [hany] at this
      cases this
  | true =>
    rw [hm]
    constructor
    · intro hj
      show (col.map (fun x => if x = Cell.na then Cell.num m else x))[j]? = some (Cell.num q)
      rw [List.getElem?_map, hj]
      exact congrArg some (if_neg (by simp))
    · intro hj
      show (col.map (fun x => if x = Cell.na then Cell.num m else x))[j]? = some (Cell.num m)
      rw [List.getElem?_map, hj]
      exact congrArg some (if_pos rfl)

/-- Instance of `imputation_batch_mean`: the column `[NaN, 3]` has batch
mean 3; the missing cell becomes 3 and the present cell stays 3. -/
theorem imputation_batch_mean_inst :
    (fillnaMean [Cell.na, Cell.num 3])[1]? = some (Cell.num 3) ∧
    (fillnaMean [Cell.na, Cell.num 3])[0]? = some (Cell.num 3) := by
  have hm : cellColMean [Cell.na, Cell.num 3] = some 3 := by
    simp [cellColMean, List.filterMap_cons]
  exact ⟨(imputation_batch_mean [Cell.na, Cell.num 3] 1 3 3 hm).1 rfl,
    (imputation_batch_mean [Cell.na, Cell.num 3] 0 3 3 hm).2 rfl⟩

/-! ## Claim C8: the schema error -/

/-- C8.  `prepare_features_from_df` fails if and only if at least one
required feature column is absent from the input frame, and the raised
error carries exactly the list of missing required columns; with every
required column present no schema error is raised. -/
theorem schema_error_iff_missing :
    ∀ (enc : Option (List String)) (df : Frame) (cols : List String),
    ((∃ m, prepareFeaturesFromDf enc df cols = .error m) ↔ ∃ c ∈ cols, c ∉ frameNames df)
    ∧ (∀ m, prepareFeaturesFromDf enc df cols = .error m →
        m = cols.filter (fun c => c ∉ frameNames df)) := by
  intro enc df cols
  rw [prepareFeaturesFromDf]
  by_cases hmiss : cols.filter (fun c => c ∉ frameNames df) = []
  · rw [if_pos hmiss]
    constructor
    · constructor
      · rintro ⟨m, hm⟩
        cases hm
      · rintro ⟨c, hc, hnc⟩
        exfalso
        have : c ∈ cols.filter (fun c => c ∉ frameNames df) :=
          List.mem_filter.mpr ⟨hc, by simpa using hnc⟩
        rw [hmiss] at this
        cases this
    · intro m hm
      cases hm
  · rw [if_neg hmiss]
    constructor
    · constructor
      · intro _
        rcases List.exists_mem_of_ne_nil _ hmiss with ⟨c, hc⟩
        have h1 := (List.mem_filter.mp hc).1
        have h2 : c ∉ frameNames df := by simpa using (List.mem_filter.mp hc).2
        exact ⟨c, h1, h2⟩
      · intro _
        exact ⟨cols.filter (fun c => c ∉ frameNames df), rfl⟩
    · intro m hm
      cases hm
      rfl

/-- Instance of `schema_error_iff_missing`: a frame with only column
`y` is rejected for the required columns `Марка` and `x`, with exactly
that missing list reported. -/
theorem schema_error_iff_missing_inst :
    (∃ m, prepareFeaturesFromDf (some ["A"]) [("y", [Cell.num 1])] ["Марка", "x"] = .error m) ∧
    prepareFeaturesFromDf (some ["A"]) [("y", [Cell.num 1])] ["Марка", "x"] =
      .error ["Марка", "x"] := by
  have h := schema_error_iff_missing (some ["A"]) [("y", [Cell.num 1])] ["Марка", "x"]
  have h1 : ∃ m, prepareFeaturesFromDf (some ["A"]) [("y", [Cell.num 1])] ["Марка", "x"] =
      .error m := h.1.mpr (by decide)
  rcases h1 with ⟨m, hm⟩
  have h2 := h.2 m hm
  refine ⟨⟨m, hm⟩, ?_⟩
  rw [hm, h2]
  rfl

/-! ## Claim C9: the missing-model condition -/

/-- C9.  With no trained model artifact on disk, constructing the
predictor succeeds and records the absence (`model := none`); every
prediction attempt then raises the explicit model-unavailable error
(`ValueError("Модель не загружена")`, embedded as
`PredError.modelUnavailable`); and the report runner catches the error
and shows it instead of crashing, so the overall process survives. -/
theorem model_unavailable_reported :
    ∀ (disk : Disk) (df X : Frame) (cols : List String) (th : ℚ),
    disk.model = none →
    loadPredictor disk = ⟨none, disk.encoder⟩
    ∧ predictFromFeatures (loadPredictor disk) X = .error .modelUnavailable
    ∧ predictProbaFromFeatures (loadPredictor disk) X = .error .modelUnavailable
    ∧ (∃ e, runPredictionReport disk df cols th = .errorShown e) := by
  intro disk df X cols th hnone
  rcases disk with ⟨dm, de⟩
  have hdm : dm = none := hnone
  subst hdm
  refine ⟨rfl, rfl, rfl, ?_⟩
  rw [runPredictionReport]
  cases hprep : prepareFeaturesFromDf (loadPredictor ⟨none, de⟩).encoder df cols with
  | error missing =>
    have haddp : addPredictionsToDf (loadPredictor ⟨none, de⟩) df cols th =
        .error (.schema missing) := by
      rw [addPredictionsToDf, hprep]
    rw [haddp]
    exact ⟨.schema missing, rfl⟩
  | ok X2 =>
    have haddp : addPredictionsToDf (loadPredictor ⟨none, de⟩) df cols th =
        .error .modelUnavailable := by
      rw [addPredictionsToDf, hprep]
      rfl
    rw [haddp]
    exact ⟨.modelUnavailable, rfl⟩

/-- Instance of `model_unavailable_reported` on an empty disk and an
empty frame. -/
theorem model_unavailable_reported_inst :
    loadPredictor ⟨none, none⟩ = ⟨none, none⟩
    ∧ predictFromFeatures (loadPredictor ⟨none, none⟩) [] = .error .modelUnavailable
    ∧ predictProbaFromFeatures (loadPredictor ⟨none, none⟩) [] = .error .modelUnavailable
    ∧ (∃ e, runPredictionReport ⟨none, none⟩ [] ["x"] (1 / 10) = .errorShown e) :=
  model_unavailable_reported ⟨none, none⟩ [] [] ["x"] (1 / 10) rfl

/-! ## Claim C10: factorization when the encoder artifact is missing -/

/-- C10 (amended).  With no encoder artifact, the grade column is
factorized batch-locally: every NON-missing grade cell receives the
integer code of its first appearance among the non-missing cells of the
batch (a non-negative code, never the sentinel `-1`, and not required to
agree with the training-time encoding), and every MISSING grade cell
receives `-1` — the `pd.factorize` missing-value sentinel.  The latter
is the amendment: the claim as stated says `-1` is never used, which
fails on batches with a missing grade value
(`factorize_uses_na_sentinel`). -/
theorem factorize_first_appearance :
    ∀ (col : List Cell) (j : Nat) (s : String),
    (col[j]? = some (.str s) →
      (factorizeCol col)[j]? =
        some (.num ((posOf (Cell.str s) (firstApp (col.filter (fun y => y ≠ Cell.na))) : Nat) : ℚ))
      ∧ (0 : ℚ) ≤ ((posOf (Cell.str s) (firstApp (col.filter (fun y => y ≠ Cell.na))) : Nat) : ℚ))
    ∧ (col[j]? = some Cell.na → (factorizeCol col)[j]? = some (.num (-1))) := by
  intro col j s
  constructor
  · intro hj
    constructor
    · rw [factorizeCol, List.getElem?_map, hj]
      rfl
    · exact Nat.cast_nonneg _
  · intro hj
    rw [factorizeCol, List.getElem?_map, hj]
    rfl

/-- Instance of `factorize_first_appearance`: in the batch
`[A, B, A, NaN]` the third cell encodes to the first-appearance code of
`A`, and the missing cell encodes to `-1`. -/
theorem factorize_first_appearance_inst :
    ((factorizeCol [Cell.str "A", Cell.str "B", Cell.str "A", Cell.na])[2]? =
      some (.num ((posOf (Cell.str "A")
        (firstApp ([Cell.str "A", Cell.str "B", Cell.str "A", Cell.na].filter
          (fun y => y ≠ Cell.na))) : Nat) : ℚ))
      ∧ (0 : ℚ) ≤ ((posOf (Cell.str "A")
        (firstApp ([Cell.str "A", Cell.str "B", Cell.str "A", Cell.na].filter
          (fun y => y ≠ Cell.na))) : Nat) : ℚ))
    ∧ (factorizeCol [Cell.str "A", Cell.str "B", Cell.str "A", Cell.na])[3]? =
      some (.num (-1)) :=
  ⟨(factorize_first_appearance [Cell.str "A", Cell.str "B", Cell.str "A", Cell.na] 2 "A").1 rfl,
    (factorize_first_appearance [Cell.str "A", Cell.str "B", Cell.str "A", Cell.na] 3 "A").2 rfl⟩

/-- Counterexample to C10 as stated: with no encoder artifact and a
batch whose grade column is `[A, NaN]`, feature preparation succeeds but
produces the sentinel `-1` (for the missing cell) — `-1` IS used. -/
theorem factorize_uses_na_sentinel :
    prepareFeaturesFromDf none [("Марка", [Cell.str "A", Cell.na])] ["Марка"] =
      .ok [("Марка", [Cell.num 0, Cell.num (-1)])] := by
  rfl

end CoalFire
